import Mathlib

/-!
# Verification of the video-chat signaling relay and peer orchestrator

Shallow embedding of the WebSocket signaling relay (`server/server.js`)
and the client-side peer-connection orchestrator
(`src/app/hooks/useWebRTC.ts`).

Channels (WebSockets) are modelled by natural numbers; the environment
`rs : Nat → Bool` gives each channel's readiness (`readyState === OPEN`).
JavaScript `Map`s are modelled by association lists whose `set` replaces
in place and whose `delete` removes the key; JS `Set`s of user ids are
modelled by duplicate-free lists with append-on-add.  JS string
falsiness (`!x` true for both `undefined` and `""`) is modelled
explicitly by `isFalsy`.
-/

namespace VideoChat

/-- `Option.isFalsy o` models the JavaScript test `!x` on a field `x`
destructured from `data.payload || {}`: true when the field is absent
(`undefined`) or the empty string. -/
def isFalsy : Option String → Bool
  | none => true
  | some s => s = ""

/-! ## Association-list primitives (JS `Map` model) -/

/-- `Map.get`: first value stored under key `k`, if any. -/
def lookupA {κ α : Type} [DecidableEq κ] : List (κ × α) → κ → Option α
  | [], _ => none
  | (k, v) :: rest, key => if k = key then some v else lookupA rest key

/-- `Map.set`: replace the value under `k` in place, or append a new
entry when the key is absent. -/
def setA {κ α : Type} [DecidableEq κ] : List (κ × α) → κ → α → List (κ × α)
  | [], key, v => [(key, v)]
  | (k, w) :: rest, key, v =>
      if k = key then (key, v) :: rest else (k, w) :: setA rest key v

/-- `Map.delete`: remove the entry under `k`. -/
def eraseA {κ α : Type} [DecidableEq κ] : List (κ × α) → κ → List (κ × α)
  | [], _ => []
  | (k, w) :: rest, key =>
      if k = key then eraseA rest key else (k, w) :: eraseA rest key

/-- `Set.add`: append the element when absent (JS sets keep insertion
order and ignore duplicate adds). -/
def addMem (l : List String) (x : String) : List String :=
  if x ∈ l then l else l ++ [x]

/-- `Set.delete`: remove the (unique) occurrence of `x`. -/
def eraseMem : List String → String → List String
  | [], _ => []
  | y :: rest, x => if y = x then rest else y :: eraseMem rest x

/-! ## Relay state (`server.js` globals) -/

/-- The relay's process-wide signaling state:
`clients` (userId → (ws, roomId)), `rooms` (roomId → member ids, in
insertion order) and `wsToUserId` (ws → userId), exactly the three maps
declared at the top of `server.js`. -/
structure ServerState where
  clients : List (String × Nat × String)
  rooms : List (String × List String)
  wsToUserId : List (Nat × String)
  deriving DecidableEq, Repr

/-- The empty relay state at process start. -/
def initialServer : ServerState := ⟨[], [], []⟩

/-- Outbound messages the relay can emit (`sendTo` payloads). -/
inductive OutMsg where
  | errorMsg (message : String)
  | existingRoom (userIds : List String)
  | userJoined (userId : String)
  | userLeft (userId : String)
  | signal (senderId : String) (signalData : String)
  deriving DecidableEq, Repr

/-- Observable channel effects of one relay step: a `ws.send` of a
serialized message, or a `ws.close()`. -/
inductive Effect where
  | send (ch : Nat) (msg : OutMsg)
  | close (ch : Nat)
  deriving DecidableEq, Repr

/-- `sendTo(ws, message)`: delivered only when the socket is open,
silently dropped otherwise. -/
def sendTo (rs : Nat → Bool) (ch : Nat) (msg : OutMsg) : List Effect :=
  if rs ch then [Effect.send ch msg] else []

/-- `broadcast(roomId, senderWs, message)`: send to every member of the
room whose registered channel is open and distinct from the sender's. -/
def broadcast (rs : Nat → Bool) (st : ServerState) (roomId : String)
    (senderWs : Nat) (msg : OutMsg) : List Effect :=
  match lookupA st.rooms roomId with
  | none => []
  | some members =>
      members.filterMap (fun uid =>
        match lookupA st.clients uid with
        | some (cws, _) =>
            if cws ≠ senderWs ∧ rs cws = true then some (Effect.send cws msg)
            else none
        | none => none)

/-- `handleDisconnect(ws)`: implicit leave.  If the channel had an
associated user, remove the user from `wsToUserId`, `clients` and its
room; delete the room when it empties, otherwise broadcast `user_left`
to the survivors. -/
def handleDisconnect (rs : Nat → Bool) (st : ServerState) (ws : Nat) :
    ServerState × List Effect :=
  match lookupA st.wsToUserId ws with
  | none => (st, [])
  | some userId =>
    match lookupA st.clients userId with
    | none => (st, [])
    | some (_, roomId) =>
      let st1 : ServerState :=
        { st with wsToUserId := eraseA st.wsToUserId ws,
                  clients := eraseA st.clients userId }
      match lookupA st1.rooms roomId with
      | none => (st1, [])
      | some members =>
        let members' := eraseMem members userId
        if members' = [] then
          ({ st1 with rooms := eraseA st1.rooms roomId }, [])
        else
          let st2 : ServerState :=
            { st1 with rooms := setA st1.rooms roomId members' }
          (st2, broadcast rs st2 roomId ws (OutMsg.userLeft userId))

/-- A parsed inbound JSON message: the `type` tag plus the payload
fields the relay ever destructures (absent fields are `none`, matching
`data.payload || {}` yielding `undefined`). -/
structure RawMsg where
  type : String
  userId : Option String
  roomId : Option String
  receiverId : Option String
  signalData : Option String
  deriving DecidableEq, Repr

/-- A `join` message carrying both fields. -/
def mkJoin (userId roomId : String) : RawMsg :=
  ⟨"join", some userId, some roomId, none, none⟩

/-- A `signal` message carrying both fields. -/
def mkSignal (receiverId signalData : String) : RawMsg :=
  ⟨"signal", none, none, some receiverId, some signalData⟩

/-- The `join` case of the relay's message switch. -/
def handleJoin (rs : Nat → Bool) (st : ServerState) (ws : Nat)
    (m : RawMsg) : ServerState × List Effect :=
  if isFalsy m.userId || isFalsy m.roomId then
    (st, sendTo rs ws (OutMsg.errorMsg "Missing userId or roomId in join message"))
  else
    match m.userId, m.roomId with
    | some userId, some roomId =>
      if (lookupA st.clients userId).isSome then
        (st, sendTo rs ws
              (OutMsg.errorMsg ("User ID " ++ userId ++ " is already in use."))
            ++ [Effect.close ws])
      else
        -- clean up any previous association of this socket
        let (st1, effs0) := handleDisconnect rs st ws
        let st2 : ServerState :=
          { st1 with wsToUserId := setA st1.wsToUserId ws userId,
                     clients := setA st1.clients userId (ws, roomId) }
        let members :=
          match lookupA st2.rooms roomId with
          | none => addMem [] userId
          | some ms => addMem ms userId
        let st3 : ServerState := { st2 with rooms := setA st2.rooms roomId members }
        let existingUserIds := members.filter (fun id => ¬ id = userId)
        (st3,
          effs0
          ++ sendTo rs ws (OutMsg.existingRoom existingUserIds)
          ++ broadcast rs st3 roomId ws (OutMsg.userJoined userId))
    | _, _ => (st, [])

/-- The `signal` case of the relay's message switch. -/
def handleSignal (rs : Nat → Bool) (st : ServerState) (ws : Nat)
    (m : RawMsg) : ServerState × List Effect :=
  match lookupA st.wsToUserId ws with
  | none =>
      (st, sendTo rs ws (OutMsg.errorMsg "Cannot send signal before joining a room"))
  | some senderId =>
    if isFalsy m.receiverId || isFalsy m.signalData then
      (st, sendTo rs ws
            (OutMsg.errorMsg "Missing receiverId or signalData in signal message"))
    else
      match m.receiverId, m.signalData with
      | some receiverId, some signalData =>
        match lookupA st.clients receiverId with
        | some (rws, _) =>
            if rs rws then (st, sendTo rs rws (OutMsg.signal senderId signalData))
            else (st, [])
        | none => (st, [])
      | _, _ => (st, [])

/-- `ws.on('message')` dispatch: the `switch (data.type)` of
`server.js`, with the default case answering
`Unknown message type: <type>`. -/
def handleMessage (rs : Nat → Bool) (st : ServerState) (ws : Nat)
    (m : RawMsg) : ServerState × List Effect :=
  if m.type = "join" then handleJoin rs st ws m
  else if m.type = "signal" then handleSignal rs st ws m
  else (st, sendTo rs ws (OutMsg.errorMsg ("Unknown message type: " ++ m.type)))

/-- One externally visible relay event: an inbound message on a channel,
or a channel close/error (both call `handleDisconnect`). -/
inductive ServerEvent where
  | message (ws : Nat) (m : RawMsg)
  | disconnect (ws : Nat)
  deriving Repr

/-- State transition of one relay event (effects discarded). -/
def serverStep (rs : Nat → Bool) (st : ServerState) : ServerEvent → ServerState
  | ServerEvent.message ws m => (handleMessage rs st ws m).1
  | ServerEvent.disconnect ws => (handleDisconnect rs st ws).1

/-! ## Client orchestrator (`useWebRTC.ts`) -/

/-- One `RTCRtpEncodingParameters` entry, reduced to the single field
`setVideoBitrate` reads and writes. -/
structure EncodingRec where
  maxBitrate : Option Nat
  deriving DecidableEq, Repr

/-- The video `RTCRtpSender` of a peer connection: its current
encoding parameters. -/
structure SenderRec where
  encodings : List EncodingRec
  deriving DecidableEq, Repr

/-- The internal `RTCPeerConnection` (`peer._pc`) as far as the quality
controls inspect it: the video sender found by
`getSenders().find(kind === 'video')`, if any. -/
structure PCRec where
  videoSender : Option SenderRec
  deriving DecidableEq, Repr

/-- A `PeerData` entry of the orchestrator's `peers` map: the
`initiator` flag the `Peer` instance was constructed with, the remote
stream once received, and the internal `RTCPeerConnection` when
accessible (`none` models a simple-peer instance whose `_pc` is not
available; negotiation internals beyond this are opaque). -/
structure PeerRec where
  initiator : Bool
  stream : Option String
  pc : Option PCRec
  deriving DecidableEq, Repr

/-- Orchestrator state: whether `localStream` is non-null, the value of
`userIdRef`, whether `wsSendMessageRef` holds a send function, and the
`peers` map. -/
structure ClientState where
  localStream : Bool
  userId : Option String
  sendAvailable : Bool
  peers : List (String × PeerRec)
  deriving DecidableEq, Repr

/-- `createPeer(peerId, initiator)`: returns unchanged (an early
`return`, no exception) when the local stream or user id is missing,
when a peer for `peerId` already exists, or when no send function is
available; otherwise records a fresh peer constructed with the given
`initiator` flag. -/
def createPeer (st : ClientState) (peerId : String) (initiator : Bool) :
    ClientState :=
  if st.localStream = false ∨ st.userId = none then st
  else if (lookupA st.peers peerId).isSome then st
  else if st.sendAvailable = false then st
  else { st with peers := setA st.peers peerId ⟨initiator, none, none⟩ }

/-- `removePeer(peerId)`: destroy and delete the entry when present;
when absent, return the map unchanged (the `return prevPeers` branch). -/
def removePeer (st : ClientState) (peerId : String) : ClientState :=
  match lookupA st.peers peerId with
  | some _ => { st with peers := eraseA st.peers peerId }
  | none => st

/-- Inbound relay notifications the orchestrator dispatches on
(`handleWebSocketMessage`'s `switch (type)`). -/
inductive ClientMsg where
  | existingRoom (userIds : List String)
  | userJoined (userId : String)
  | signal (senderId : String) (signalData : String)
  | userLeft (userId : String)
  | errorMsg (message : String)
  | reconnectRequest (userId : String) (targetId : String)
  | other (t : String)
  deriving Repr

/-- `handleWebSocketMessage`: the orchestrator's reaction to one relay
notification.  The `signal` case feeds data into the opaque peer
instance and never touches the `peers` map; the `error` and unknown
cases only log. -/
def handleClientMessage (st : ClientState) : ClientMsg → ClientState
  | ClientMsg.existingRoom userIds =>
    match st.userId with
    | some me =>
        userIds.foldl
          (fun s peerId => if peerId = me then s else createPeer s peerId true) st
    | none => st
  | ClientMsg.userJoined newPeerId =>
    match st.userId with
    | some me => if newPeerId ≠ me then createPeer st newPeerId false else st
    | none => st
  | ClientMsg.signal _ _ => st
  | ClientMsg.userLeft leavingPeerId => removePeer st leavingPeerId
  | ClientMsg.errorMsg _ => st
  | ClientMsg.reconnectRequest reconnectingPeerId targetId =>
    match st.userId with
    | some me =>
      if targetId = me ∧ reconnectingPeerId ≠ me then
        let st1 :=
          if (lookupA st.peers reconnectingPeerId).isSome then
            removePeer st reconnectingPeerId
          else st
        createPeer st1 reconnectingPeerId true
      else st
    | none => st
  | ClientMsg.other _ => st

/-- `parameters.encodings` update inside `setVideoBitrate`: create a
single encoding carrying the bitrate when none exist, otherwise set
`encodings[0].maxBitrate`. -/
def applyEncodings (bitrate : Nat) : List EncodingRec → List EncodingRec
  | [] => [⟨some bitrate⟩]
  | e :: rest => { e with maxBitrate := some bitrate } :: rest

/-- The per-peer body of `setVideoBitrate`'s loop: `continue` (return
the record unchanged) when `_pc` is inaccessible or no video sender is
found, otherwise write the new encoding parameters back. -/
def applyBitratePeer (bitrate : Nat) (rec : PeerRec) : PeerRec :=
  match rec.pc with
  | none => rec
  | some pc =>
    match pc.videoSender with
    | none => rec
    | some sender =>
        { rec with pc := some ⟨some ⟨applyEncodings bitrate sender.encodings⟩⟩ }

/-- `setVideoBitrate(bitrate)`: iterate over every peer, applying the
per-peer body; failures (`continue`) for one peer never abort the
loop for the others. -/
def setVideoBitrate (bitrate : Nat) (st : ClientState) : ClientState :=
  { st with peers := st.peers.map (fun p => (p.1, applyBitratePeer bitrate p.2)) }

/-! ## Association-list lemmas -/

theorem lookupA_setA_self {κ α : Type} [DecidableEq κ]
    (l : List (κ × α)) (k : κ) (v : α) : lookupA (setA l k v) k = some v := by
  induction l with
  | nil => simp [setA, lookupA]
  | cons p rest ih =>
      by_cases h : p.1 = k
      · simp [setA, h, lookupA]
      · simpa [setA, h, lookupA] using ih

theorem lookupA_setA_ne {κ α : Type} [DecidableEq κ]
    (l : List (κ × α)) (k k' : κ) (v : α) (h : k' ≠ k) :
    lookupA (setA l k v) k' = lookupA l k' := by
  have hk : ¬ k = k' := fun h' => h h'.symm
  induction l with
  | nil => simp [setA, lookupA, hk]
  | cons p rest ih =>
      obtain ⟨a, b⟩ := p
      by_cases hp : a = k
      · subst hp
        simp [setA, lookupA, hk]
      · simp [setA, hp, lookupA, ih]

theorem lookupA_eraseA_self {κ α : Type} [DecidableEq κ]
    (l : List (κ × α)) (k : κ) : lookupA (eraseA l k) k = none := by
  induction l with
  | nil => simp [eraseA, lookupA]
  | cons p rest ih =>
      obtain ⟨a, b⟩ := p
      by_cases hp : a = k
      · simpa [eraseA, hp] using ih
      · simp [eraseA, hp, lookupA, ih]

theorem lookupA_eraseA_ne {κ α : Type} [DecidableEq κ]
    (l : List (κ × α)) (k k' : κ) (h : k' ≠ k) :
    lookupA (eraseA l k) k' = lookupA l k' := by
  have hk : ¬ k = k' := fun h' => h h'.symm
  induction l with
  | nil => simp [eraseA]
  | cons p rest ih =>
      obtain ⟨a, b⟩ := p
      by_cases hp : a = k
      · subst hp
        simp [eraseA, lookupA, hk, ih]
      · simp [eraseA, hp, lookupA, ih]

theorem eraseA_of_lookupA_none {κ α : Type} [DecidableEq κ]
    (l : List (κ × α)) (k : κ) (h : lookupA l k = none) : eraseA l k = l := by
  induction l with
  | nil => simp [eraseA]
  | cons p rest ih =>
      obtain ⟨a, b⟩ := p
      by_cases hp : a = k
      · simp [lookupA, hp] at h
      · simp [lookupA, hp] at h
        simp [eraseA, hp, ih h]

theorem setA_of_lookupA_none {κ α : Type} [DecidableEq κ]
    (l : List (κ × α)) (k : κ) (v : α) (h : lookupA l k = none) :
    setA l k v = l ++ [(k, v)] := by
  induction l with
  | nil => simp [setA]
  | cons p rest ih =>
      obtain ⟨a, b⟩ := p
      by_cases hp : a = k
      · simp [lookupA, hp] at h
      · simp [lookupA, hp] at h
        simp [setA, hp, ih h]

theorem lookupA_map_snd {κ α β : Type} [DecidableEq κ]
    (f : α → β) (l : List (κ × α)) (k : κ) :
    lookupA (l.map (fun p => (p.1, f p.2))) k = (lookupA l k).map f := by
  induction l with
  | nil => simp [lookupA]
  | cons p rest ih =>
      obtain ⟨a, b⟩ := p
      by_cases hp : a = k
      · simp [lookupA, hp]
      · simp [lookupA, hp, ih]

theorem mem_addMem {l : List String} {x y : String} :
    x ∈ addMem l y ↔ x ∈ l ∨ x = y := by
  unfold addMem
  by_cases h : y ∈ l
  · simp [h]
    intro hx
    subst hx
    exact h
  · simp [h, or_comm]

theorem nodup_addMem {l : List String} (y : String) (h : l.Nodup) :
    (addMem l y).Nodup := by
  unfold addMem
  by_cases hy : y ∈ l
  · simp [hy, h]
  · simp [hy, List.nodup_append, h]

theorem mem_of_mem_eraseMem {l : List String} {x y : String}
    (h : x ∈ eraseMem l y) : x ∈ l := by
  induction l with
  | nil => simp [eraseMem] at h
  | cons z rest ih =>
      by_cases hz : z = y
      · simp [eraseMem, hz] at h
        simp [h]
      · simp [eraseMem, hz] at h
        rcases h with h | h
        · simp [h]
        · simp [ih h]

theorem nodup_eraseMem {l : List String} (y : String) (h : l.Nodup) :
    (eraseMem l y).Nodup := by
  induction l with
  | nil => simp [eraseMem]
  | cons z rest ih =>
      rcases List.nodup_cons.mp h with ⟨hz, hrest⟩
      by_cases hzy : z = y
      · simpa [eraseMem, hzy]
      · have heq : eraseMem (z :: rest) y = z :: eraseMem rest y := by
          simp [eraseMem, hzy]
        rw [heq]
        refine List.nodup_cons.mpr ⟨?_, ih hrest⟩
        intro hmem
        exact hz (mem_of_mem_eraseMem hmem)

theorem notMem_eraseMem_self {l : List String} (h : l.Nodup) (y : String) :
    y ∉ eraseMem l y := by
  induction l with
  | nil => simp [eraseMem]
  | cons z rest ih =>
      rcases List.nodup_cons.mp h with ⟨hz, hrest⟩
      by_cases hzy : z = y
      · subst hzy
        simpa [eraseMem] using hz
      · have heq : eraseMem (z :: rest) y = z :: eraseMem rest y := by
          simp [eraseMem, hzy]
        rw [heq]
        simp
        exact ⟨fun h' => hzy h'.symm, ih hrest⟩

theorem mem_eraseMem_of_ne {l : List String} {x y : String}
    (hx : x ∈ l) (hne : x ≠ y) : x ∈ eraseMem l y := by
  induction l with
  | nil => simp at hx
  | cons z rest ih =>
      by_cases hzy : z = y
      · subst hzy
        rcases List.mem_cons.mp hx with h | h
        · exact absurd h hne
        · simpa [eraseMem]
      · rcases List.mem_cons.mp hx with h | h
        · simp [eraseMem, hzy, h]
        · simp [eraseMem, hzy, ih h]

/-! ## Concrete example states for witnesses -/

/-- A readiness environment where every channel is open. -/
def allOpen : Nat → Bool := fun _ => true

/-- Relay state with one registered client: alice on channel 0 in room
r1 (the state produced by alice's join from the empty state). -/
def exampleOne : ServerState :=
  ⟨[("alice", 0, "r1")], [("r1", ["alice"])], [(0, "alice")]⟩

/-- Relay state with two registered clients: alice on channel 0 and bob
on channel 1, both in room r1. -/
def exampleTwo : ServerState :=
  ⟨[("alice", 0, "r1"), ("bob", 1, "r1")],
   [("r1", ["alice", "bob"])],
   [(0, "alice"), (1, "bob")]⟩

/-! ## C2 — duplicate join rejection -/

/-- C2: every join whose userId is already present in the registry is
answered on the sending channel with the error
"User ID … is already in use.", the channel is closed, and the relay
state — registry and every room's member set — is returned unchanged
(the existing entry is neither merged nor replaced). -/
theorem duplicate_join_rejected (rs : Nat → Bool) (st : ServerState)
    (ws : Nat) (m : RawMsg) (uid rid : String)
    (htype : m.type = "join") (huid : m.userId = some uid) (hne : uid ≠ "")
    (hroom : m.roomId = some rid) (hrne : rid ≠ "")
    (hreg : (lookupA st.clients uid).isSome) (hopen : rs ws = true) :
    handleMessage rs st ws m =
      (st, [Effect.send ws
              (OutMsg.errorMsg ("User ID " ++ uid ++ " is already in use.")),
            Effect.close ws]) := by
  simp [handleMessage, htype, handleJoin, huid, hroom, isFalsy, hne, hrne,
    hreg, sendTo, hopen]

/-- Witness for C2: bob's channel re-sends a join for the registered id
"alice"; the relay replies the duplicate error, closes the channel, and
the state is unchanged. -/
theorem duplicate_join_rejected_witness :
    handleMessage allOpen exampleTwo 1 (mkJoin "alice" "r1") =
      (exampleTwo, [Effect.send 1
          (OutMsg.errorMsg "User ID alice is already in use."),
        Effect.close 1]) :=
  duplicate_join_rejected allOpen exampleTwo 1 (mkJoin "alice" "r1")
    "alice" "r1" rfl rfl (by decide) rfl (by decide) (by decide) rfl

/-! ## C5 — unroutable signals are silently dropped -/

/-- C5: a well-formed signal from a registered sender whose receiver is
not registered, or whose registered channel is not open, produces no
effect at all: nothing is delivered to any channel, no error goes back
to the sender, and the relay state is unchanged. -/
theorem signal_to_unknown_dropped (rs : Nat → Bool) (st : ServerState)
    (ws : Nat) (m : RawMsg) (senderId rid sd : String)
    (htype : m.type = "signal")
    (hsender : lookupA st.wsToUserId ws = some senderId)
    (hrid : m.receiverId = some rid) (hrne : rid ≠ "")
    (hsd : m.signalData = some sd) (hsdne : sd ≠ "")
    (hmiss : lookupA st.clients rid = none ∨
      ∃ rws rrid, lookupA st.clients rid = some (rws, rrid) ∧ rs rws = false) :
    handleMessage rs st ws m = (st, []) := by
  rcases hmiss with h | ⟨rws, rrid, h, hclosed⟩
  · simp [handleMessage, htype, handleSignal, hsender, hrid, hsd, isFalsy,
      hrne, hsdne, h]
  · simp [handleMessage, htype, handleSignal, hsender, hrid, hsd, isFalsy,
      hrne, hsdne, h, hclosed]

/-- Witness for C5: alice signals the unregistered id "ghost"; the relay
does nothing. -/
theorem signal_to_unknown_dropped_witness :
    handleMessage allOpen exampleTwo 0 (mkSignal "ghost" "blob") =
      (exampleTwo, []) :=
  signal_to_unknown_dropped allOpen exampleTwo 0 (mkSignal "ghost" "blob")
    "alice" "ghost" "blob" rfl (by decide) rfl (by decide) rfl (by decide)
    (Or.inl (by decide))

/-! ## C3 — channel close is an implicit leave -/

/-- C3: on channel close/error the relay performs an implicit leave.
If no user id was associated with the channel, nothing changes and
nothing is sent.  If `uid` was associated (registered in room `rid`),
then afterwards `uid` is gone from the registry and from the
channel-association map, `rid`'s member set loses `uid` — the room
being deleted outright when that leaves it empty — and `user_left{uid}`
is sent to every remaining member whose registered channel is open and
distinct from the closing one. -/
theorem disconnect_implicit_leave (rs : Nat → Bool) (st : ServerState)
    (ws : Nat) :
    (lookupA st.wsToUserId ws = none → handleDisconnect rs st ws = (st, []))
  ∧ (∀ uid w rid members,
      lookupA st.wsToUserId ws = some uid →
      lookupA st.clients uid = some (w, rid) →
      lookupA st.rooms rid = some members →
      lookupA (handleDisconnect rs st ws).1.clients uid = none
      ∧ lookupA (handleDisconnect rs st ws).1.wsToUserId ws = none
      ∧ (eraseMem members uid = [] →
          lookupA (handleDisconnect rs st ws).1.rooms rid = none)
      ∧ (eraseMem members uid ≠ [] →
          lookupA (handleDisconnect rs st ws).1.rooms rid
            = some (eraseMem members uid))
      ∧ (∀ q qws qrid, q ∈ eraseMem members uid →
          lookupA (handleDisconnect rs st ws).1.clients q = some (qws, qrid) →
          qws ≠ ws → rs qws = true →
          Effect.send qws (OutMsg.userLeft uid) ∈ (handleDisconnect rs st ws).2)) := by
  constructor
  · intro h
    simp [handleDisconnect, h]
  · intro uid w rid members h1 h2 h3
    by_cases hemp : eraseMem members uid = []
    · have hres : handleDisconnect rs st ws =
        ({ st with wsToUserId := eraseA st.wsToUserId ws,
                   clients := eraseA st.clients uid,
                   rooms := eraseA st.rooms rid }, []) := by
        simp [handleDisconnect, h1, h2, h3, hemp]
      refine ⟨?_, ?_, ?_, ?_, ?_⟩
      · rw [hres]; exact lookupA_eraseA_self _ _
      · rw [hres]; exact lookupA_eraseA_self _ _
      · intro _; rw [hres]; exact lookupA_eraseA_self _ _
      · intro hne; exact absurd hemp hne
      · intro q qws qrid hq _ _ _
        rw [hemp] at hq
        simp at hq
    · have hres : handleDisconnect rs st ws =
        (⟨eraseA st.clients uid,
          setA st.rooms rid (eraseMem members uid),
          eraseA st.wsToUserId ws⟩,
         broadcast rs
          ⟨eraseA st.clients uid,
           setA st.rooms rid (eraseMem members uid),
           eraseA st.wsToUserId ws⟩ rid ws (OutMsg.userLeft uid)) := by
        simp [handleDisconnect, h1, h2, h3, hemp]
      refine ⟨?_, ?_, ?_, ?_, ?_⟩
      · rw [hres]; exact lookupA_eraseA_self _ _
      · rw [hres]; exact lookupA_eraseA_self _ _
      · intro h; exact absurd h hemp
      · intro _; rw [hres]; exact lookupA_setA_self _ _ _
      · intro q qws qrid hq hlook hqws hrs
        rw [hres] at hlook ⊢
        simp only [broadcast, lookupA_setA_self]
        refine List.mem_filterMap.mpr ⟨q, hq, ?_⟩
        simp [hlook, hqws, hrs]

/-- Witness for C3: bob's channel (1) closes in the two-client state;
bob is removed everywhere and alice (channel 0) receives
`user_left{bob}`; a channel with no associated user (7) triggers
nothing. -/
theorem disconnect_implicit_leave_witness :
    handleDisconnect allOpen exampleTwo 7 = (exampleTwo, [])
  ∧ lookupA (handleDisconnect allOpen exampleTwo 1).1.clients "bob" = none
  ∧ lookupA (handleDisconnect allOpen exampleTwo 1).1.rooms "r1" = some ["alice"]
  ∧ Effect.send 0 (OutMsg.userLeft "bob") ∈ (handleDisconnect allOpen exampleTwo 1).2 := by
  refine ⟨(disconnect_implicit_leave allOpen exampleTwo 7).1 (by decide),
    ((disconnect_implicit_leave allOpen exampleTwo 1).2 "bob" 1 "r1"
      ["alice", "bob"] (by decide) (by decide) (by decide)).1,
    ((disconnect_implicit_leave allOpen exampleTwo 1).2 "bob" 1 "r1"
      ["alice", "bob"] (by decide) (by decide) (by decide)).2.2.2.1 (by decide),
    ((disconnect_implicit_leave allOpen exampleTwo 1).2 "bob" 1 "r1"
      ["alice", "bob"] (by decide) (by decide) (by decide)).2.2.2.2 "alice" 0 "r1"
      (by decide) (by decide) (by decide) rfl⟩

/-! ## C4 — reconnect_request is not relayed -/

/-- C4 counterexample: in the two-client state, alice (channel 0) sends
`reconnect_request` targeting bob.  The relay's switch has no case for
that type, so the default case answers alice with
"Unknown message type: reconnect_request" and the full effect list
shows nothing is ever sent to bob's channel 1 — the message is not
relayed client-to-client. -/
theorem reconnect_request_not_relayed_cex :
    handleMessage allOpen exampleTwo 0
        ⟨"reconnect_request", some "alice", none, none, none⟩ =
      (exampleTwo,
       [Effect.send 0
          (OutMsg.errorMsg "Unknown message type: reconnect_request")]) := by
  decide

/-- C4 amended: the relay answers any `reconnect_request` with an
"Unknown message type" error to the sender and changes no state, so the
target never receives it.  On the orchestrator side, were such a message
delivered to its target, the target (not the requester) would drop any
existing peer for the requesting id and create a fresh Peer Connection
with initiator = true toward it; the requesting side, for its part, only
destroys its failed Peer Connection before sending the request. -/
theorem reconnect_request_amended :
    (∀ (rs : Nat → Bool) (st : ServerState) (ws : Nat) (m : RawMsg),
      m.type = "reconnect_request" →
      handleMessage rs st ws m =
        (st, sendTo rs ws
          (OutMsg.errorMsg "Unknown message type: reconnect_request")))
  ∧ (∀ (st : ClientState) (uid me : String),
      st.userId = some me → uid ≠ me →
      st.localStream = true → st.sendAvailable = true →
      lookupA (handleClientMessage st
          (ClientMsg.reconnectRequest uid me)).peers uid
        = some ⟨true, none, none⟩) := by
  constructor
  · intro rs st ws m htype
    simp [handleMessage, htype]
  · intro st uid me hu hne hls hsa
    simp only [handleClientMessage, hu]
    rw [if_pos ⟨trivial, hne⟩]
    by_cases hmem : (lookupA st.peers uid).isSome
    · rw [if_pos hmem]
      rcases Option.isSome_iff_exists.mp hmem with ⟨r, hr⟩
      unfold removePeer
      rw [hr]
      have h1 : lookupA (eraseA st.peers uid) uid = none := lookupA_eraseA_self _ _
      simp [createPeer, hls, hu, h1, hsa, lookupA_setA_self]
    · rw [if_neg hmem]
      have h1 : lookupA st.peers uid = none := by
        cases h : lookupA st.peers uid with
        | none => rfl
        | some r => rw [h] at hmem; simp at hmem
      simp [createPeer, hls, hu, h1, hsa, lookupA_setA_self]

/-- Witness for C4 amended: concrete relay refusal on channel 0, and a
concrete target-side handler run creating the initiator=true peer. -/
theorem reconnect_request_amended_witness :
    handleMessage allOpen exampleTwo 0
        ⟨"reconnect_request", some "alice", none, none, none⟩ =
      (exampleTwo,
       sendTo allOpen 0
         (OutMsg.errorMsg "Unknown message type: reconnect_request"))
  ∧ lookupA (handleClientMessage ⟨true, some "B", true, []⟩
        (ClientMsg.reconnectRequest "A" "B")).peers "A"
      = some ⟨true, none, none⟩ :=
  ⟨reconnect_request_amended.1 allOpen exampleTwo 0
      ⟨"reconnect_request", some "alice", none, none, none⟩ rfl,
   reconnect_request_amended.2 ⟨true, some "B", true, []⟩ "A" "B" rfl
      (by decide) rfl rfl⟩

/-! ## C8 — re-join is rejected, not idempotent -/

/-- C8 counterexample: alice joins room r1 from the empty relay state
(the reply carries the member set: `existing_room []`); re-sending the
identical join on the same channel is then answered with the
"already in use" error and a channel close — no `existing_room` reply
(no member set) is returned, so the re-join is not an idempotent no-op
returning the same set. -/
theorem rejoin_not_idempotent_cex :
    handleMessage allOpen initialServer 0 (mkJoin "alice" "r1") =
      (exampleOne, [Effect.send 0 (OutMsg.existingRoom [])])
  ∧ handleMessage allOpen exampleOne 0 (mkJoin "alice" "r1") =
      (exampleOne,
       [Effect.send 0 (OutMsg.errorMsg "User ID alice is already in use."),
        Effect.close 0])
  ∧ ¬ Effect.send 0 (OutMsg.existingRoom [])
        ∈ (handleMessage allOpen exampleOne 0 (mkJoin "alice" "r1")).2 := by
  refine ⟨by decide, by decide, by decide⟩

/-- C8 amended: a join for a participant id that is already registered
— in particular a re-join of the same room by a current member — is
rejected rather than treated idempotently: the relay replies with the
"already in use" error and closes the channel; it does not reply with
the member set, and the registry and every room are left unchanged. -/
theorem rejoin_rejected_amended (rs : Nat → Bool) (st : ServerState)
    (ws : Nat) (uid rid : String) (hne : uid ≠ "") (hrne : rid ≠ "")
    (hreg : (lookupA st.clients uid).isSome) :
    (handleMessage rs st ws (mkJoin uid rid)).1 = st
  ∧ (∀ ids, ¬ Effect.send ws (OutMsg.existingRoom ids)
        ∈ (handleMessage rs st ws (mkJoin uid rid)).2)
  ∧ (rs ws = true →
      Effect.close ws ∈ (handleMessage rs st ws (mkJoin uid rid)).2) := by
  have hmain : handleMessage rs st ws (mkJoin uid rid) =
      (st, sendTo rs ws
          (OutMsg.errorMsg ("User ID " ++ uid ++ " is already in use."))
        ++ [Effect.close ws]) := by
    simp [handleMessage, mkJoin, handleJoin, isFalsy, hne, hrne, hreg]
  refine ⟨by rw [hmain], ?_, ?_⟩
  · intro ids
    rw [hmain]
    by_cases h : rs ws = true <;> simp [sendTo, h]
  · intro hopen
    rw [hmain]
    simp

/-- Witness for C8 amended: the re-join of alice in the one-client
state leaves the state unchanged, sends no member set, and closes the
channel. -/
theorem rejoin_rejected_amended_witness :
    (handleMessage allOpen exampleOne 0 (mkJoin "alice" "r1")).1 = exampleOne
  ∧ ¬ Effect.send 0 (OutMsg.existingRoom [])
        ∈ (handleMessage allOpen exampleOne 0 (mkJoin "alice" "r1")).2
  ∧ Effect.close 0 ∈ (handleMessage allOpen exampleOne 0 (mkJoin "alice" "r1")).2 :=
  ⟨(rejoin_rejected_amended allOpen exampleOne 0 "alice" "r1" (by decide)
      (by decide) (by decide)).1,
   (rejoin_rejected_amended allOpen exampleOne 0 "alice" "r1" (by decide)
      (by decide) (by decide)).2.1 [],
   (rejoin_rejected_amended allOpen exampleOne 0 "alice" "r1" (by decide)
      (by decide) (by decide)).2.2 rfl⟩

/-! ## Orchestrator helper lemmas -/

theorem createPeer_noop (st : ClientState) (p : String) (i : Bool)
    (h : st.localStream = false ∨ st.userId = none) :
    createPeer st p i = st := by
  unfold createPeer
  rw [if_pos h]

theorem createPeer_fields (st : ClientState) (p : String) (i : Bool) :
    (createPeer st p i).localStream = st.localStream
  ∧ (createPeer st p i).userId = st.userId
  ∧ (createPeer st p i).sendAvailable = st.sendAvailable := by
  unfold createPeer
  by_cases h1 : st.localStream = false ∨ st.userId = none
  · rw [if_pos h1]; exact ⟨rfl, rfl, rfl⟩
  · rw [if_neg h1]
    by_cases h2 : (lookupA st.peers p).isSome
    · rw [if_pos h2]; exact ⟨rfl, rfl, rfl⟩
    · rw [if_neg h2]
      by_cases h3 : st.sendAvailable = false
      · rw [if_pos h3]; exact ⟨rfl, rfl, rfl⟩
      · rw [if_neg h3]; exact ⟨rfl, rfl, rfl⟩

theorem createPeer_preserves_some (st : ClientState) (p : String) (i : Bool)
    (q : String) (r : PeerRec) (h : lookupA st.peers q = some r) :
    lookupA (createPeer st p i).peers q = some r := by
  unfold createPeer
  by_cases h1 : st.localStream = false ∨ st.userId = none
  · rw [if_pos h1]; exact h
  · rw [if_neg h1]
    by_cases h2 : (lookupA st.peers p).isSome
    · rw [if_pos h2]; exact h
    · rw [if_neg h2]
      by_cases h3 : st.sendAvailable = false
      · rw [if_pos h3]; exact h
      · rw [if_neg h3]
        have hqp : q ≠ p := by
          intro hq
          subst hq
          rw [h] at h2
          simp at h2
        exact (lookupA_setA_ne st.peers p q _ hqp).trans h

theorem createPeer_lookup_ne (st : ClientState) (p : String) (i : Bool)
    (q : String) (hqp : q ≠ p) :
    lookupA (createPeer st p i).peers q = lookupA st.peers q := by
  unfold createPeer
  by_cases h1 : st.localStream = false ∨ st.userId = none
  · rw [if_pos h1]
  · rw [if_neg h1]
    by_cases h2 : (lookupA st.peers p).isSome
    · rw [if_pos h2]
    · rw [if_neg h2]
      by_cases h3 : st.sendAvailable = false
      · rw [if_pos h3]
      · rw [if_neg h3]
        exact lookupA_setA_ne st.peers p q _ hqp

theorem createPeer_creates (st : ClientState) (p : String) (i : Bool)
    (hls : st.localStream = true) (hu : st.userId.isSome)
    (hsa : st.sendAvailable = true) (h : lookupA st.peers p = none) :
    lookupA (createPeer st p i).peers p = some ⟨i, none, none⟩ := by
  unfold createPeer
  have h1 : ¬ (st.localStream = false ∨ st.userId = none) := by
    rcases Option.isSome_iff_exists.mp hu with ⟨me, hme⟩
    simp [hls, hme]
  rw [if_neg h1, if_neg (by simp [h]), if_neg (by simp [hsa])]
  exact lookupA_setA_self st.peers p _

/-- The fold the orchestrator runs over `existing_room`'s member list. -/
def existingFold (me : String) (st : ClientState) (ids : List String) :
    ClientState :=
  List.foldl (fun s peerId => if peerId = me then s else createPeer s peerId true)
    st ids

theorem handleClientMessage_existingRoom (st : ClientState) (me : String)
    (ids : List String) (hu : st.userId = some me) :
    handleClientMessage st (ClientMsg.existingRoom ids) = existingFold me st ids := by
  simp [handleClientMessage, hu, existingFold]

theorem existingFold_fields (me : String) (ids : List String) (st : ClientState) :
    (existingFold me st ids).localStream = st.localStream
  ∧ (existingFold me st ids).userId = st.userId
  ∧ (existingFold me st ids).sendAvailable = st.sendAvailable := by
  induction ids generalizing st with
  | nil => exact ⟨rfl, rfl, rfl⟩
  | cons x rest ih =>
      simp only [existingFold, List.foldl_cons] at ih ⊢
      by_cases hx : x = me
      · rw [if_pos hx]; exact ih st
      · rw [if_neg hx]
        rcases ih (createPeer st x true) with ⟨a, b, c⟩
        rcases createPeer_fields st x true with ⟨a', b', c'⟩
        exact ⟨a.trans a', b.trans b', c.trans c'⟩

theorem existingFold_preserves_some (me : String) (ids : List String)
    (st : ClientState) (q : String) (r : PeerRec)
    (h : lookupA st.peers q = some r) :
    lookupA (existingFold me st ids).peers q = some r := by
  induction ids generalizing st with
  | nil => exact h
  | cons x rest ih =>
      simp only [existingFold, List.foldl_cons] at ih ⊢
      by_cases hx : x = me
      · rw [if_pos hx]; exact ih st h
      · rw [if_neg hx]
        exact ih (createPeer st x true) (createPeer_preserves_some st x true q r h)

theorem existingFold_creates (me : String) (ids : List String)
    (st : ClientState) (hls : st.localStream = true)
    (hu : st.userId = some me) (hsa : st.sendAvailable = true)
    (id : String) (hmem : id ∈ ids) (hne : id ≠ me)
    (hdisj : lookupA st.peers id = none
           ∨ lookupA st.peers id = some ⟨true, none, none⟩) :
    lookupA (existingFold me st ids).peers id = some ⟨true, none, none⟩ := by
  induction ids generalizing st with
  | nil => simp at hmem
  | cons x rest ih =>
      simp only [existingFold, List.foldl_cons] at ih ⊢
      by_cases hx : x = me
      · rw [if_pos hx]
        rcases List.mem_cons.mp hmem with hid | hid
        · exact absurd (hid ▸ hx) hne
        · exact ih st hls hu hsa hid hdisj
      · rw [if_neg hx]
        have hf := createPeer_fields st x true
        have hls' : (createPeer st x true).localStream = true := hf.1.trans hls
        have hu' : (createPeer st x true).userId = some me := hf.2.1.trans hu
        have hsa' : (createPeer st x true).sendAvailable = true := hf.2.2.trans hsa
        rcases List.mem_cons.mp hmem with hid | hid
        · subst hid
          have hlook : lookupA (createPeer st id true).peers id
              = some ⟨true, none, none⟩ := by
            rcases hdisj with hnone | hsome
            · exact createPeer_creates st id true hls (by rw [hu]; rfl) hsa hnone
            · exact createPeer_preserves_some st id true id _ hsome
          exact existingFold_preserves_some me rest (createPeer st id true)
            id _ hlook
        · refine ih (createPeer st x true) hls' hu' hsa' hid ?_
          by_cases hxi : x = id
          · subst hxi
            rcases hdisj with hnone | hsome
            · exact Or.inr (createPeer_creates st x true hls (by rw [hu]; rfl)
                hsa hnone)
            · exact Or.inr (createPeer_preserves_some st x true x _ hsome)
          · rw [createPeer_lookup_ne st x true id (fun h => hxi h.symm)]
            exact hdisj

theorem existingFold_noop (me : String) (ids : List String) (st : ClientState)
    (h : st.localStream = false ∨ st.userId = none) :
    existingFold me st ids = st := by
  induction ids with
  | nil => rfl
  | cons x rest ih =>
      simp only [existingFold, List.foldl_cons] at ih ⊢
      by_cases hx : x = me
      · rw [if_pos hx]; exact ih
      · rw [if_neg hx, createPeer_noop st x true h]; exact ih

/-! ## C1 — initiator-role assignment -/

/-- C1: on `existing_room{memberIds}` the orchestrator creates, for
every listed id that is not the local id and has no existing peer, a
Peer Connection with initiator = true; on `user_joined{pid}` for a
non-local id it appends exactly one new Peer Connection with
initiator = false.  Consequently, when A joins a room already holding B
and C, A ends with exactly the two initiator=true peers B and C, while
B and C each gain exactly the one initiator=false peer A. -/
theorem initiator_role_assignment (st : ClientState) (me : String)
    (ids : List String) (pid : String)
    (hls : st.localStream = true) (hu : st.userId = some me)
    (hsa : st.sendAvailable = true) :
    (∀ id ∈ ids, id ≠ me → lookupA st.peers id = none →
        lookupA (handleClientMessage st (ClientMsg.existingRoom ids)).peers id
          = some ⟨true, none, none⟩)
  ∧ (pid ≠ me → lookupA st.peers pid = none →
        (handleClientMessage st (ClientMsg.userJoined pid)).peers
          = st.peers ++ [(pid, ⟨false, none, none⟩)])
  ∧ (handleClientMessage ⟨true, some "A", true, []⟩
        (ClientMsg.existingRoom ["B", "C"])).peers
      = [("B", ⟨true, none, none⟩), ("C", ⟨true, none, none⟩)]
  ∧ (handleClientMessage ⟨true, some "B", true, [("C", ⟨true, none, none⟩)]⟩
        (ClientMsg.userJoined "A")).peers
      = [("C", ⟨true, none, none⟩), ("A", ⟨false, none, none⟩)]
  ∧ (handleClientMessage ⟨true, some "C", true, [("B", ⟨true, none, none⟩)]⟩
        (ClientMsg.userJoined "A")).peers
      = [("B", ⟨true, none, none⟩), ("A", ⟨false, none, none⟩)] := by
  refine ⟨?_, ?_, by decide, by decide, by decide⟩
  · intro id hmem hne hnone
    rw [handleClientMessage_existingRoom st me ids hu]
    exact existingFold_creates me ids st hls hu hsa id hmem hne (Or.inl hnone)
  · intro hne hnone
    simp only [handleClientMessage, hu]
    rw [if_pos hne]
    unfold createPeer
    rw [if_neg (by simp [hls, hu]), if_neg (by simp [hnone]),
      if_neg (by simp [hsa])]
    exact setA_of_lookupA_none st.peers pid _ hnone

/-- Witness for C1: concrete runs of both general parts. -/
theorem initiator_role_assignment_witness :
    lookupA (handleClientMessage ⟨true, some "A", true, []⟩
        (ClientMsg.existingRoom ["B", "C"])).peers "B" = some ⟨true, none, none⟩
  ∧ (handleClientMessage ⟨true, some "B", true, []⟩
        (ClientMsg.userJoined "A")).peers
      = [] ++ [("A", ⟨false, none, none⟩)] :=
  ⟨(initiator_role_assignment ⟨true, some "A", true, []⟩ "A" ["B", "C"] "X"
      rfl rfl rfl).1 "B" (by decide) (by decide) rfl,
   (initiator_role_assignment ⟨true, some "B", true, []⟩ "B" [] "A"
      rfl rfl rfl).2.1 (by decide) rfl⟩

/-! ## C6 — user_left removal is total and idempotent -/

/-- C6: after the orchestrator processes `user_left{X}` its peer map no
longer contains `X`, whatever record (connection phase) `X` had; and
processing `user_left{X}` when `X` is absent — e.g. the peer already
self-closed — changes nothing (the `removePeer` functional update
returns the previous map and no callback fires). -/
theorem user_left_removes_peer (st : ClientState) (X : String) :
    lookupA (handleClientMessage st (ClientMsg.userLeft X)).peers X = none
  ∧ (lookupA st.peers X = none →
      handleClientMessage st (ClientMsg.userLeft X) = st) := by
  constructor
  · simp only [handleClientMessage, removePeer]
    cases h : lookupA st.peers X with
    | none => simp [h]
    | some r => simp [h, lookupA_eraseA_self]
  · intro h
    simp [handleClientMessage, removePeer, h]

/-- Witness for C6: a connected peer "C" disappears after
`user_left{C}`, and `user_left{Z}` for the unknown id "Z" is a no-op. -/
theorem user_left_removes_peer_witness :
    lookupA (handleClientMessage
        ⟨true, some "B", true, [("C", ⟨true, some "s", none⟩)]⟩
        (ClientMsg.userLeft "C")).peers "C" = none
  ∧ handleClientMessage ⟨true, some "B", true, [("C", ⟨true, some "s", none⟩)]⟩
        (ClientMsg.userLeft "Z")
      = ⟨true, some "B", true, [("C", ⟨true, some "s", none⟩)]⟩ :=
  ⟨(user_left_removes_peer ⟨true, some "B", true, [("C", ⟨true, some "s", none⟩)]⟩
      "C").1,
   (user_left_removes_peer ⟨true, some "B", true, [("C", ⟨true, some "s", none⟩)]⟩
      "Z").2 (by decide)⟩

/-! ## C9 — bitrate control is best-effort and per-peer isolated -/

/-- C9: `setVideoBitrate` over an empty peer map is a no-op that
completes (no error); each peer's record is rewritten independently of
every other peer's state, so one peer missing its internal connection
or video sender leaves that record untouched without affecting the
rest; and where the video path exists, the first encoding's maximum
bitrate is set to the requested value. -/
theorem setVideoBitrate_best_effort (b : Nat) (st : ClientState)
    (pid : String) (rec : PeerRec) :
    (st.peers = [] → setVideoBitrate b st = st)
  ∧ (lookupA st.peers pid = some rec →
      lookupA (setVideoBitrate b st).peers pid = some (applyBitratePeer b rec))
  ∧ (rec.pc = none → applyBitratePeer b rec = rec)
  ∧ (∀ pc, rec.pc = some pc → pc.videoSender = none →
      applyBitratePeer b rec = rec)
  ∧ (∀ es, (applyEncodings b es).head? = some ⟨some b⟩) := by
  refine ⟨?_, ?_, ?_, ?_, ?_⟩
  · intro h
    cases st with
    | mk ls u sa ps =>
        simp only at h
        subst h
        rfl
  · intro h
    unfold setVideoBitrate
    show lookupA (st.peers.map fun p => (p.1, applyBitratePeer b p.2)) pid = _
    rw [lookupA_map_snd (applyBitratePeer b) st.peers pid, h]
    rfl
  · intro h
    unfold applyBitratePeer
    rw [h]
  · intro pc h hv
    simp [applyBitratePeer, h, hv]
  · intro es
    cases es <;> rfl

/-- Witness for C9: the empty map is untouched; a peer with a video
sender gets `maxBitrate` set while a peer with no accessible connection
is left unchanged in the same call. -/
theorem setVideoBitrate_best_effort_witness :
    setVideoBitrate 500000 ⟨true, some "B", true, []⟩ = ⟨true, some "B", true, []⟩
  ∧ lookupA (setVideoBitrate 500000
        ⟨true, some "B", true,
          [("C", ⟨true, none, some ⟨some ⟨[⟨none⟩]⟩⟩⟩),
           ("D", ⟨false, none, none⟩)]⟩).peers "C"
      = some (applyBitratePeer 500000 ⟨true, none, some ⟨some ⟨[⟨none⟩]⟩⟩⟩)
  ∧ lookupA (setVideoBitrate 500000
        ⟨true, some "B", true,
          [("C", ⟨true, none, some ⟨some ⟨[⟨none⟩]⟩⟩⟩),
           ("D", ⟨false, none, none⟩)]⟩).peers "D"
      = some (applyBitratePeer 500000 ⟨false, none, none⟩)
  ∧ applyBitratePeer 500000 (⟨false, none, none⟩ : PeerRec) = ⟨false, none, none⟩
  ∧ (applyEncodings 500000 [⟨none⟩]).head? = some ⟨some 500000⟩ :=
  ⟨(setVideoBitrate_best_effort 500000 ⟨true, some "B", true, []⟩ "C"
      ⟨true, none, none⟩).1 rfl,
   (setVideoBitrate_best_effort 500000
      ⟨true, some "B", true,
        [("C", ⟨true, none, some ⟨some ⟨[⟨none⟩]⟩⟩⟩),
         ("D", ⟨false, none, none⟩)]⟩ "C"
      ⟨true, none, some ⟨some ⟨[⟨none⟩]⟩⟩⟩).2.1 (by decide),
   (setVideoBitrate_best_effort 500000
      ⟨true, some "B", true,
        [("C", ⟨true, none, some ⟨some ⟨[⟨none⟩]⟩⟩⟩),
         ("D", ⟨false, none, none⟩)]⟩ "D"
      ⟨false, none, none⟩).2.1 (by decide),
   (setVideoBitrate_best_effort 500000 ⟨true, some "B", true, []⟩ "D"
      ⟨false, none, none⟩).2.2.1 rfl,
   (setVideoBitrate_best_effort 500000 ⟨true, some "B", true, []⟩ "D"
      ⟨false, none, none⟩).2.2.2.2 [⟨none⟩]⟩

/-! ## C10 — missing local media silently skips peer creation -/

/-- C10: when the local media stream is absent or the local user id is
not yet set, `createPeer` returns without creating anything and without
error, and the `existing_room` / `user_joined` handlers leave the whole
orchestrator state unchanged — nothing queues the missed notification
for replay, so those remote peers are never connected from this side. -/
theorem missing_media_skips_creation (st : ClientState) (ids : List String)
    (pid p : String) (i : Bool)
    (h : st.localStream = false ∨ st.userId = none) :
    createPeer st p i = st
  ∧ handleClientMessage st (ClientMsg.existingRoom ids) = st
  ∧ handleClientMessage st (ClientMsg.userJoined pid) = st := by
  refine ⟨createPeer_noop st p i h, ?_, ?_⟩
  · cases hu : st.userId with
    | none => simp [handleClientMessage, hu]
    | some me =>
        rw [handleClientMessage_existingRoom st me ids hu]
        exact existingFold_noop me ids st h
  · cases hu : st.userId with
    | none => simp [handleClientMessage, hu]
    | some me =>
        simp only [handleClientMessage, hu]
        by_cases hp : pid ≠ me
        · rw [if_pos hp]
          exact createPeer_noop st pid false h
        · rw [if_neg hp]

/-- Witness for C10: with a null local stream, handling
`existing_room{B,C}` and `user_joined{B}` leaves the state unchanged. -/
theorem missing_media_skips_creation_witness :
    createPeer ⟨false, some "A", true, []⟩ "B" true = ⟨false, some "A", true, []⟩
  ∧ handleClientMessage ⟨false, some "A", true, []⟩
        (ClientMsg.existingRoom ["B", "C"]) = ⟨false, some "A", true, []⟩
  ∧ handleClientMessage ⟨false, some "A", true, []⟩
        (ClientMsg.userJoined "B") = ⟨false, some "A", true, []⟩ :=
  missing_media_skips_creation ⟨false, some "A", true, []⟩ ["B", "C"] "B" "B"
    true (Or.inl rfl)

/-! ## C7 — registry/room consistency invariant -/

/-- The claim's invariant: every participant id in any room's member
set has an entry in the registry's id→channel map. -/
def roomsConsistent (st : ServerState) : Prop :=
  ∀ rid members uid, lookupA st.rooms rid = some members → uid ∈ members →
    (lookupA st.clients uid).isSome

/-- Strengthened inductive invariant: every room member is registered
with exactly that room's id, and member lists are duplicate-free. -/
def InvS (st : ServerState) : Prop :=
  (∀ rid members uid, lookupA st.rooms rid = some members → uid ∈ members →
     ∃ w, lookupA st.clients uid = some (w, rid))
  ∧ (∀ rid members, lookupA st.rooms rid = some members → members.Nodup)

theorem InvS_initial : InvS initialServer := by
  constructor
  · intro rid members uid h1 _
    simp [initialServer, lookupA] at h1
  · intro rid members h1
    simp [initialServer, lookupA] at h1

theorem roomsConsistent_of_InvS {st : ServerState} (h : InvS st) :
    roomsConsistent st := by
  intro rid members uid h1 h2
  rcases h.1 rid members uid h1 h2 with ⟨w, hw⟩
  simp [hw]

theorem lookupA_eraseA_none {κ α : Type} [DecidableEq κ]
    (l : List (κ × α)) (k q : κ) (h : lookupA l q = none) :
    lookupA (eraseA l k) q = none := by
  by_cases hq : q = k
  · subst hq
    exact lookupA_eraseA_self l q
  · rw [lookupA_eraseA_ne l k q hq]
    exact h

theorem InvS_handleDisconnect (rs : Nat → Bool) (st : ServerState) (ws : Nat)
    (h : InvS st) :
    InvS (handleDisconnect rs st ws).1
  ∧ (∀ q, lookupA st.clients q = none →
      lookupA (handleDisconnect rs st ws).1.clients q = none) := by
  cases h1 : lookupA st.wsToUserId ws with
  | none =>
      have hres : (handleDisconnect rs st ws).1 = st := by
        simp [handleDisconnect, h1]
      rw [hres]
      exact ⟨h, fun q hq => hq⟩
  | some uid =>
    cases h2 : lookupA st.clients uid with
    | none =>
        have hres : (handleDisconnect rs st ws).1 = st := by
          simp [handleDisconnect, h1, h2]
        rw [hres]
        exact ⟨h, fun q hq => hq⟩
    | some p =>
      obtain ⟨w, rid⟩ := p
      cases h3 : lookupA st.rooms rid with
      | none =>
          have hres : (handleDisconnect rs st ws).1 =
              { st with wsToUserId := eraseA st.wsToUserId ws,
                        clients := eraseA st.clients uid } := by
            simp [handleDisconnect, h1, h2, h3]
          rw [hres]
          refine ⟨⟨?_, ?_⟩, ?_⟩
          · intro rid' ms' uid'' hl hm
            rcases h.1 rid' ms' uid'' hl hm with ⟨w', hw'⟩
            have hne : uid'' ≠ uid := by
              intro he
              subst he
              rw [h2] at hw'
              have : rid = rid' := by
                injection hw' with hw''
                exact congrArg Prod.snd hw''
              rw [← this] at hl
              rw [h3] at hl
              exact Option.noConfusion hl
            exact ⟨w', (lookupA_eraseA_ne st.clients uid uid'' hne).trans hw'⟩
          · intro rid' ms' hl
            exact h.2 rid' ms' hl
          · intro q hq
            exact lookupA_eraseA_none st.clients uid q hq
      | some members =>
        by_cases hemp : eraseMem members uid = []
        · have hres : (handleDisconnect rs st ws).1 =
              { st with wsToUserId := eraseA st.wsToUserId ws,
                        clients := eraseA st.clients uid,
                        rooms := eraseA st.rooms rid } := by
            simp [handleDisconnect, h1, h2, h3, hemp]
          rw [hres]
          refine ⟨⟨?_, ?_⟩, ?_⟩
          · intro rid' ms' uid'' hl hm
            have hrne : rid' ≠ rid := by
              intro he
              subst he
              rw [lookupA_eraseA_self] at hl
              exact Option.noConfusion hl
            rw [lookupA_eraseA_ne st.rooms rid rid' hrne] at hl
            rcases h.1 rid' ms' uid'' hl hm with ⟨w', hw'⟩
            have hne : uid'' ≠ uid := by
              intro he
              subst he
              rw [h2] at hw'
              injection hw' with hw''
              exact hrne (congrArg Prod.snd hw'').symm
            exact ⟨w', (lookupA_eraseA_ne st.clients uid uid'' hne).trans hw'⟩
          · intro rid' ms' hl
            have hrne : rid' ≠ rid := by
              intro he
              subst he
              rw [lookupA_eraseA_self] at hl
              exact Option.noConfusion hl
            rw [lookupA_eraseA_ne st.rooms rid rid' hrne] at hl
            exact h.2 rid' ms' hl
          · intro q hq
            exact lookupA_eraseA_none st.clients uid q hq
        · have hres : (handleDisconnect rs st ws).1 =
              (⟨eraseA st.clients uid,
                setA st.rooms rid (eraseMem members uid),
                eraseA st.wsToUserId ws⟩ : ServerState) := by
            simp [handleDisconnect, h1, h2, h3, hemp]
          rw [hres]
          have hnodup : members.Nodup := h.2 rid members h3
          refine ⟨⟨?_, ?_⟩, ?_⟩
          · intro rid' ms' uid'' hl hm
            by_cases hrid : rid' = rid
            · subst hrid
              rw [lookupA_setA_self] at hl
              injection hl with hl'
              subst hl'
              have hmem0 : uid'' ∈ members := mem_of_mem_eraseMem hm
              have hne : uid'' ≠ uid := by
                intro he
                subst he
                exact notMem_eraseMem_self hnodup uid'' hm
              rcases h.1 rid' members uid'' h3 hmem0 with ⟨w', hw'⟩
              exact ⟨w', (lookupA_eraseA_ne st.clients uid uid'' hne).trans hw'⟩
            · rw [lookupA_setA_ne st.rooms rid rid' _ hrid] at hl
              rcases h.1 rid' ms' uid'' hl hm with ⟨w', hw'⟩
              have hne : uid'' ≠ uid := by
                intro he
                subst he
                rw [h2] at hw'
                injection hw' with hw''
                exact hrid (congrArg Prod.snd hw'').symm
              exact ⟨w', (lookupA_eraseA_ne st.clients uid uid'' hne).trans hw'⟩
          · intro rid' ms' hl
            by_cases hrid : rid' = rid
            · subst hrid
              rw [lookupA_setA_self] at hl
              injection hl with hl'
              subst hl'
              exact nodup_eraseMem uid hnodup
            · rw [lookupA_setA_ne st.rooms rid rid' _ hrid] at hl
              exact h.2 rid' ms' hl
          · intro q hq
            exact lookupA_eraseA_none st.clients uid q hq

theorem handleSignal_state (rs : Nat → Bool) (st : ServerState) (ws : Nat)
    (m : RawMsg) : (handleSignal rs st ws m).1 = st := by
  unfold handleSignal
  repeat' split
  all_goals rfl

theorem InvS_join_success (st1 : ServerState) (ws : Nat) (uid rid : String)
    (ms0 : List String) (h1 : InvS st1)
    (hnone1 : lookupA st1.clients uid = none)
    (hms0nodup : ms0.Nodup)
    (hms0link : ∀ u ∈ ms0, ∃ w', lookupA st1.clients u = some (w', rid)) :
    InvS ⟨setA st1.clients uid (ws, rid),
          setA st1.rooms rid (addMem ms0 uid),
          setA st1.wsToUserId ws uid⟩ := by
  constructor
  · intro rid' ms' uid'' hl hm
    by_cases hrid : rid' = rid
    · subst hrid
      rw [lookupA_setA_self] at hl
      injection hl with hl'
      subst hl'
      rw [mem_addMem] at hm
      rcases hm with hm | hm
      · rcases hms0link uid'' hm with ⟨w', hw'⟩
        have hne : uid'' ≠ uid := by
          intro he
          rw [he, hnone1] at hw'
          exact Option.noConfusion hw'
        exact ⟨w', (lookupA_setA_ne st1.clients uid uid'' _ hne).trans hw'⟩
      · subst hm
        exact ⟨ws, lookupA_setA_self st1.clients uid'' _⟩
    · rw [lookupA_setA_ne st1.rooms rid rid' _ hrid] at hl
      rcases h1.1 rid' ms' uid'' hl hm with ⟨w', hw'⟩
      have hne : uid'' ≠ uid := by
        intro he
        rw [he, hnone1] at hw'
        exact Option.noConfusion hw'
      exact ⟨w', (lookupA_setA_ne st1.clients uid uid'' _ hne).trans hw'⟩
  · intro rid' ms' hl
    by_cases hrid : rid' = rid
    · subst hrid
      rw [lookupA_setA_self] at hl
      injection hl with hl'
      subst hl'
      exact nodup_addMem uid hms0nodup
    · rw [lookupA_setA_ne st1.rooms rid rid' _ hrid] at hl
      exact h1.2 rid' ms' hl

theorem InvS_handleJoin (rs : Nat → Bool) (st : ServerState) (ws : Nat)
    (m : RawMsg) (h : InvS st) : InvS (handleJoin rs st ws m).1 := by
  unfold handleJoin
  by_cases hf : (isFalsy m.userId || isFalsy m.roomId) = true
  · rw [if_pos hf]
    exact h
  · rw [if_neg hf]
    rw [Bool.or_eq_true] at hf
    push_neg at hf
    obtain ⟨hfu, hfr⟩ := hf
    cases hu : m.userId with
    | none => rw [hu] at hfu; simp [isFalsy] at hfu
    | some uid =>
      cases hr : m.roomId with
      | none => rw [hr] at hfr; simp [isFalsy] at hfr
      | some rid =>
        by_cases hdup : (lookupA st.clients uid).isSome
        · simp only [hdup, if_pos]
          exact h
        · have hdup' : lookupA st.clients uid = none := by
            cases hd : lookupA st.clients uid with
            | none => rfl
            | some r => rw [hd] at hdup; simp at hdup
          simp only [hdup', Option.isSome_none, Bool.false_eq_true, if_neg,
            not_false_eq_true]
          have hd := InvS_handleDisconnect rs st ws h
          set st1 := (handleDisconnect rs st ws).1 with hst1
          have h1 : InvS st1 := hd.1
          have hnone1 : lookupA st1.clients uid = none := hd.2 uid hdup'
          cases hms : lookupA st1.rooms rid with
          | none =>
              simp only [hms]
              exact InvS_join_success st1 ws uid rid [] h1 hnone1
                List.nodup_nil (by simp)
          | some ms0 =>
              simp only [hms]
              exact InvS_join_success st1 ws uid rid ms0 h1 hnone1
                (h1.2 rid ms0 hms) (fun u hu' => h1.1 rid ms0 u hms hu')

theorem InvS_handleMessage (rs : Nat → Bool) (st : ServerState) (ws : Nat)
    (m : RawMsg) (h : InvS st) : InvS (handleMessage rs st ws m).1 := by
  unfold handleMessage
  by_cases h1 : m.type = "join"
  · rw [if_pos h1]
    exact InvS_handleJoin rs st ws m h
  · rw [if_neg h1]
    by_cases h2 : m.type = "signal"
    · rw [if_pos h2, handleSignal_state]
      exact h
    · rw [if_neg h2]
      exact h

theorem InvS_serverStep (rs : Nat → Bool) (st : ServerState) (e : ServerEvent)
    (h : InvS st) : InvS (serverStep rs st e) := by
  cases e with
  | message ws m => exact InvS_handleMessage rs st ws m h
  | disconnect ws => exact (InvS_handleDisconnect rs st ws h).1

theorem InvS_foldl (rs : Nat → Bool) (evs : List ServerEvent)
    (st : ServerState) (h : InvS st) :
    InvS (List.foldl (serverStep rs) st evs) := by
  induction evs generalizing st with
  | nil => exact h
  | cons e rest ih =>
      exact ih (serverStep rs st e) (InvS_serverStep rs st e h)

/-- C7: after any sequence of relay operations (joins, signals,
disconnect cleanups) starting from the empty relay state, every
participant id contained in any room's member set is also present in
the registry's id→channel map. -/
theorem registry_room_consistency (rs : Nat → Bool)
    (evs : List ServerEvent) :
    roomsConsistent (List.foldl (serverStep rs) initialServer evs) :=
  roomsConsistent_of_InvS (InvS_foldl rs evs initialServer InvS_initial)

end VideoChat
